import Mathlib

/-!
Verification of the Spinach plant monitor script
(`google_sheets_logger.py`, which also embeds the merged
`monitor_version_app_leaf logic Update.py` application).

Shallow embedding conventions:
* Machine reals (Python floats) are modelled as rationals `ℚ`.
* Pixel coordinates are integers; images and masks are abstract type
  parameters, and the OpenCV primitives that the script calls on them
  (`cvtColor`, `inRange`, `bitwise_or`, `erode`, `dilate`, `findContours`)
  are bundled in a `CVPrims` structure: the repository's functions are
  defined over an arbitrary such bundle, mirroring the source line by line.
  `cv2.contourArea` and `cv2.boundingRect` have simple documented
  arithmetic semantics (Green/shoelace area; tight axis-aligned box with
  inclusive width/height), so they are modelled concretely.
* Python's `max(xs, key=f)` (first element attaining the maximal key) is
  modelled by `pyMaxBy`.
-/

namespace SpinachMonitor

/-! ### Pixel geometry: points, contours, `cv2.boundingRect`, `cv2.contourArea` -/

/-- A 2-D integer pixel coordinate, as stored in an OpenCV contour. -/
structure Pt where
  x : Int
  y : Int
deriving DecidableEq, Repr

/-- A contour: the ordered list of boundary points returned by
`cv2.findContours`. -/
abbrev Contour := List Pt

/-- An axis-aligned rectangle `(x, y, w, h)` as returned by
`cv2.boundingRect`. -/
structure Rect where
  x : Int
  y : Int
  w : Int
  h : Int
deriving DecidableEq, Repr

/-- `cv2.boundingRect` of a point set: the top-left corner is the
componentwise minimum and the width/height are inclusive
(`max - min + 1`), per OpenCV's semantics.  The empty list (which OpenCV
never produces) maps to the degenerate zero rectangle. -/
def boundingRect : List Pt → Rect
  | [] => ⟨0, 0, 0, 0⟩
  | p :: rest =>
      let xmin := rest.foldl (fun a q => min a q.x) p.x
      let ymin := rest.foldl (fun a q => min a q.y) p.y
      let xmax := rest.foldl (fun a q => max a q.x) p.x
      let ymax := rest.foldl (fun a q => max a q.y) p.y
      ⟨xmin, ymin, xmax - xmin + 1, ymax - ymin + 1⟩

/-- The largest `y` coordinate occurring in a point set (0 for the empty
set); used only to state the specification's `max_y` phrase. -/
def maxY : List Pt → Int
  | [] => 0
  | p :: rest => rest.foldl (fun a q => max a q.y) p.y

/-- The cyclic shoelace sum `Σ (xᵢ·yᵢ₊₁ - xᵢ₊₁·yᵢ)` of a polygon. -/
def shoelace (c : Contour) : Int :=
  (c.zip (c.rotate 1)).foldl (fun s pq => s + (pq.1.x * pq.2.y - pq.2.x * pq.1.y)) 0

/-- `cv2.contourArea`: half the absolute value of the shoelace sum. -/
def contourArea (c : Contour) : ℚ := (|shoelace c| : ℤ) / 2

/-! ### Python's `max` with a key function -/

/-- One step of Python's `max(..., key=f)` loop: the accumulator is
replaced only when the candidate's key is strictly greater, so the first
element attaining the maximum wins ties. -/
def pyMaxStep (f : α → ℚ) (acc x : α) : α := if f x > f acc then x else acc

/-- Python's `max(xs, key=f)`: `none` on the empty list (where Python
raises), otherwise the first element with the maximal key. -/
def pyMaxBy (f : α → ℚ) : List α → Option α
  | [] => none
  | a :: as => some (as.foldl (pyMaxStep f) a)

theorem pyMaxStep_gt (f : α → ℚ) (a b : α) (hc : f b > f a) :
    pyMaxStep f a b = b := by simp [pyMaxStep, hc]

theorem pyMaxStep_le (f : α → ℚ) (a b : α) (hc : ¬ f b > f a) :
    pyMaxStep f a b = a := by simp [pyMaxStep, hc]

theorem pyMaxBy_mem (f : α → ℚ) (a : α) (as : List α) :
    as.foldl (pyMaxStep f) a ∈ a :: as := by
  induction as generalizing a with
  | nil => simp [List.foldl]
  | cons b bs ih =>
      simp only [List.foldl]
      by_cases hc : f b > f a
      · rw [pyMaxStep_gt f a b hc]
        rcases List.mem_cons.1 (ih b) with h1 | h1
        · rw [h1]; simp
        · simp [h1]
      · rw [pyMaxStep_le f a b hc]
        rcases List.mem_cons.1 (ih a) with h1 | h1
        · rw [h1]; simp
        · simp [h1]

theorem pyMaxBy_le (f : α → ℚ) (a : α) (as : List α) :
    ∀ x ∈ a :: as, f x ≤ f (as.foldl (pyMaxStep f) a) := by
  induction as generalizing a with
  | nil =>
      intro x hx
      simp at hx
      simp [List.foldl, hx]
  | cons b bs ih =>
      intro x hx
      simp only [List.foldl]
      by_cases hc : f b > f a
      · rw [pyMaxStep_gt f a b hc]
        rcases List.mem_cons.1 hx with h1 | h1
        · subst h1
          exact le_trans (le_of_lt hc) (ih b b (List.mem_cons_self _ _))
        · exact ih b x h1
      · rw [pyMaxStep_le f a b hc]
        rcases List.mem_cons.1 hx with h1 | h1
        · rw [h1]
          exact ih a a (List.mem_cons_self _ _)
        · rcases List.mem_cons.1 h1 with h2 | h2
          · rw [h2]
            exact le_trans (not_lt.1 hc) (ih a a (List.mem_cons_self _ _))
          · exact ih a x (List.mem_cons_of_mem _ h2)

/-- The result of Python's `max` splits its input as `l ++ r :: t` where
every element of `l` (everything collected before the winner) has a
strictly smaller key: ties are broken toward the earliest element. -/
theorem pyMaxBy_first (f : α → ℚ) (a : α) (as : List α) :
    ∃ l t, a :: as = l ++ (as.foldl (pyMaxStep f) a) :: t ∧
      ∀ x ∈ l, f x < f (as.foldl (pyMaxStep f) a) := by
  induction as generalizing a with
  | nil => exact ⟨[], [], by simp [List.foldl], by simp⟩
  | cons b bs ih =>
      simp only [List.foldl]
      by_cases hc : f b > f a
      · rw [pyMaxStep_gt f a b hc]
        obtain ⟨l, t, hsplit, hlt⟩ := ih b
        cases l with
        | nil =>
            simp only [List.nil_append] at hsplit
            obtain ⟨hr, ht⟩ := List.cons.inj hsplit
            refine ⟨[a], t, ?_, ?_⟩
            · rw [← hr, ← ht]
              simp
            · intro x hx
              simp at hx
              subst hx
              calc f x < f b := hc
                _ ≤ f (bs.foldl (pyMaxStep f) b) :=
                    pyMaxBy_le f b bs b (List.mem_cons_self _ _)
        | cons c l' =>
            simp only [List.cons_append] at hsplit
            obtain ⟨hcb, ht⟩ := List.cons.inj hsplit
            refine ⟨a :: c :: l', t, ?_, ?_⟩
            · simp only [List.cons_append]
              exact congrArg (fun xs => a :: xs) hsplit
            · intro x hx
              have hcr : f c < f (bs.foldl (pyMaxStep f) b) :=
                hlt c (List.mem_cons_self _ _)
              rcases List.mem_cons.1 hx with h1 | h1
              · subst h1
                calc f x < f b := hc
                  _ = f c := by rw [hcb]
                  _ < _ := hcr
              · exact hlt x h1
      · rw [pyMaxStep_le f a b hc]
        obtain ⟨l, t, hsplit, hlt⟩ := ih a
        cases l with
        | nil =>
            simp only [List.nil_append] at hsplit
            obtain ⟨hr, ht⟩ := List.cons.inj hsplit
            refine ⟨[], b :: bs, ?_, ?_⟩
            · rw [← hr]
              simp
            · simp
        | cons c l' =>
            simp only [List.cons_append] at hsplit
            obtain ⟨hca, ht⟩ := List.cons.inj hsplit
            have har : f a < f (bs.foldl (pyMaxStep f) a) := by
              have := hlt c (List.mem_cons_self _ _)
              rwa [← hca] at this
            refine ⟨a :: b :: l', t, ?_, ?_⟩
            · simp only [List.cons_append]
              exact congrArg (fun xs => a :: b :: xs) ht
            · intro x hx
              rcases List.mem_cons.1 hx with h1 | h1
              · subst h1; exact har
              · rcases List.mem_cons.1 h1 with h2 | h2
                · subst h2
                  calc f x ≤ f a := not_lt.1 hc
                    _ < _ := har
                · exact hlt x (List.mem_cons_of_mem _ h2)

/-! ### Configuration constants (section 1 of the script) -/

/-- A 3-channel HSV bound as stored in the `np.array([h, s, v])`
configuration constants. -/
abbrev Vec3 := ℕ × ℕ × ℕ

/-- `np.all(v == 0)`: every channel of the bound is zero. -/
def allZero (v : Vec3) : Prop := v = (0, 0, 0)

instance : DecidablePred allZero :=
  fun v => inferInstanceAs (Decidable (v = (0, 0, 0)))

def REFERENCE_LOWER : Vec3 := (90, 70, 50)

def REFERENCE_UPPER : Vec3 := (130, 255, 255)

def REFERENCE_WIDTH_MM : ℚ := 10

def PLANT_LOWER_1 : Vec3 := (0, 30, 30)

def PLANT_UPPER_1 : Vec3 := (40, 255, 200)

def PLANT_LOWER_2 : Vec3 := (0, 0, 0)

def PLANT_UPPER_2 : Vec3 := (0, 0, 0)

def MIN_LEAF_AREA_PIXELS : ℚ := 100

/-- `self.smoothing_window = 30`. -/
def smoothing_window : ℕ := 30

/-! ### The OpenCV primitives the script calls

Frames and masks are abstract types and the library routines on them are
bundled as a structure; the script's functions are defined over an
arbitrary bundle, so theorems quantify over the library's behaviour and
counterexamples instantiate it concretely. -/

structure CVPrims (Img Mask : Type) where
  cvtColorBGR2HSV : Img → Img
  inRange : Img → Vec3 → Vec3 → Mask
  bitwise_or : Mask → Mask → Mask
  erode : Mask → ℕ → Mask
  dilate : Mask → ℕ → Mask
  findContours : Mask → List Contour

variable {Img Mask : Type}

/-! ### `find_plant_contours` (script lines 539-560) -/

/-- `find_plant_contours`, generalised over the four configured bounds
(the script reads them from the module constants `PLANT_LOWER_1`, ...):
HSV conversion; `inRange` mask for range 1; range 2 is merged by
`bitwise_or` only when `not np.all(PLANT_LOWER_2 == 0) and
not np.all(PLANT_UPPER_2 == 0)`; then `erode`/`dilate` with 3 iterations
each and the `MIN_LEAF_AREA_PIXELS` strict area filter. -/
def find_plant_contours_ranges (cv : CVPrims Img Mask)
    (lower1 upper1 lower2 upper2 : Vec3) (frame : Img) : List Contour :=
  let hsv := cv.cvtColorBGR2HSV frame
  let mask1 := cv.inRange hsv lower1 upper1
  let mask :=
    if ¬ allZero lower2 ∧ ¬ allZero upper2 then
      cv.bitwise_or mask1 (cv.inRange hsv lower2 upper2)
    else
      mask1
  let eroded := cv.dilate (cv.erode mask 3) 3
  (cv.findContours eroded).filter (fun c => decide (contourArea c > MIN_LEAF_AREA_PIXELS))

/-- `find_plant_contours` exactly as in the script, with the configured
plant colour ranges. -/
def find_plant_contours (cv : CVPrims Img Mask) (frame : Img) : List Contour :=
  find_plant_contours_ranges cv PLANT_LOWER_1 PLANT_UPPER_1 PLANT_LOWER_2 PLANT_UPPER_2 frame

/-- The segmentation pipeline with the second range omitted entirely:
`inRange` for the one remaining range, the same `erode`/`dilate`
morphology and the same area filter.  This is the spec-side
"omitting the range entirely" pipeline against which C3 compares the
skip behaviour, and the spec-side Segmenter run that C5 claims the
Calibrator performs. -/
def segment_one_range (cv : CVPrims Img Mask) (lower upper : Vec3) (frame : Img) :
    List Contour :=
  let hsv := cv.cvtColorBGR2HSV frame
  let mask := cv.inRange hsv lower upper
  let eroded := cv.dilate (cv.erode mask 3) 3
  (cv.findContours eroded).filter (fun c => decide (contourArea c > MIN_LEAF_AREA_PIXELS))

/-- The variant of `find_plant_contours_ranges` that C3 describes: the
second range is skipped only when BOTH of its bounds are all-zero
(spec-side definition, used to exhibit where the claim departs from the
code). -/
def find_plant_contours_claim (cv : CVPrims Img Mask)
    (lower1 upper1 lower2 upper2 : Vec3) (frame : Img) : List Contour :=
  let hsv := cv.cvtColorBGR2HSV frame
  let mask1 := cv.inRange hsv lower1 upper1
  let mask :=
    if ¬ (allZero lower2 ∧ allZero upper2) then
      cv.bitwise_or mask1 (cv.inRange hsv lower2 upper2)
    else
      mask1
  let eroded := cv.dilate (cv.erode mask 3) 3
  (cv.findContours eroded).filter (fun c => decide (contourArea c > MIN_LEAF_AREA_PIXELS))

/-! ### `find_pixels_per_mm` (script lines 514-537) -/

/-- The Calibrator's contour extraction, as the first three statements of
`find_pixels_per_mm` perform it: HSV conversion, `inRange` with the
reference colour bounds, `findContours` — with no morphology pass and no
area filter. -/
def calib_contours (cv : CVPrims Img Mask) (frame : Img) : List Contour :=
  cv.findContours (cv.inRange (cv.cvtColorBGR2HSV frame) REFERENCE_LOWER REFERENCE_UPPER)

/-- `find_pixels_per_mm`, numeric result only (the rectangle and label the
function draws on the returned annotated frame are operator feedback and
do not affect the ratio): `0` when no contour is found, otherwise the
bounding-box width of the `max(contours, key=cv2.contourArea)` contour
divided by `REFERENCE_WIDTH_MM`, with a `0` fallback when that width is
zero. -/
def find_pixels_per_mm (cv : CVPrims Img Mask) (frame : Img) : ℚ :=
  match pyMaxBy contourArea (calib_contours cv frame) with
  | none => 0
  | some ref_contour =>
      let width_in_pixels := (boundingRect ref_contour).w
      if width_in_pixels = 0 then 0
      else (width_in_pixels : ℚ) / REFERENCE_WIDTH_MM

/-! ### `PlantMonitorApp.video_loop`: per-frame measurement and smoothing -/

/-- The `current_metrics` record `{"height": ..., "count": ..., "area": ...}`. -/
structure Metrics where
  height : ℚ
  count : ℕ
  area : ℚ
deriving DecidableEq, Repr

/-- The all-zero metrics (`plant_height_mm, total_leaf_area_mm2,
leaf_count = 0.0, 0.0, 0`). -/
def zeroMetrics : Metrics := ⟨0, 0, 0⟩

/-- Section B of `video_loop`: the per-frame measurement.  With a
successful calibration (`self.calibrated and self.pixels_per_mm > 0`) and
at least one surviving plant contour, the height is the bounding-box
height of `np.concatenate(plant_contours)` over the scale, and the area
is the sum of the contour areas over the scale squared; otherwise all
zero. -/
def video_measure (cv : CVPrims Img Mask) (calibrated : Bool)
    (pixels_per_mm : ℚ) (frame : Img) : Metrics :=
  if calibrated = true ∧ pixels_per_mm > 0 then
    let plant_contours := find_plant_contours cv frame
    match plant_contours with
    | [] => zeroMetrics
    | _ :: _ =>
        let all_points := plant_contours.flatten
        let box := boundingRect all_points
        let plant_height_mm := (box.h : ℚ) / pixels_per_mm
        let total_leaf_area_pixels := (plant_contours.map contourArea).sum
        let total_leaf_area_mm2 := total_leaf_area_pixels / pixels_per_mm ^ 2
        ⟨plant_height_mm, plant_contours.length, total_leaf_area_mm2⟩
  else zeroMetrics

/-- The smoothing-history update in `video_loop`: append the new metrics,
then `pop(0)` once when the length exceeds `self.smoothing_window`. -/
def pushHistory (window : ℕ) (history : List Metrics) (m : Metrics) : List Metrics :=
  let appended := history ++ [m]
  if appended.length > window then appended.tail else appended

/-- The mutable fields of `PlantMonitorApp` that the measurement and
logging paths touch. -/
structure AppState (Img : Type) where
  current_metrics : Metrics
  measurement_history : List Metrics
  current_frame_raw : Option Img

/-- One `video_loop` iteration's state update (frame capture, measurement
and smoothing; the Tk labels, which display the windowed averages, are
UI-only).  `current_metrics` is always assigned the raw per-frame
measurement before the history is touched. -/
def video_step (cv : CVPrims Img Mask) (calibrated : Bool) (pixels_per_mm : ℚ)
    (st : AppState Img) (frame : Img) : AppState Img :=
  let m := video_measure cv calibrated pixels_per_mm frame
  { current_frame_raw := some frame
    current_metrics := m
    measurement_history := pushHistory smoothing_window st.measurement_history m }

/-- The windowed average the UI labels display (`np.mean` over the
history); `(0, 0, 0)` when the history is empty. -/
def windowed_average (history : List Metrics) : ℚ × ℚ × ℚ :=
  match history with
  | [] => (0, 0, 0)
  | _ :: _ =>
      ((history.map Metrics.height).sum / history.length,
       (history.map (fun m => (m.count : ℚ))).sum / history.length,
       (history.map Metrics.area).sum / history.length)

/-! ### `PlantMonitorApp.log_data_thread`: the best-of-window sampler -/

/-- The collection step of the 2-second window: at each poll a snapshot
copy of `current_metrics` and `current_frame_raw` is appended whenever a
raw frame exists (`if self.current_frame_raw is not None`).  The input is
the sequence of app states observed at the polls. -/
def collect_samples (states : List (AppState Img)) : List (Metrics × Img) :=
  states.filterMap
    (fun st => st.current_frame_raw.map (fun fr => (st.current_metrics, fr)))

/-- The selection step of `log_data_thread`:
`max(all_measurements, key=lambda item: item[0]["area"])`, or `none` when
no candidates were collected (the `Analysis failed` path). -/
def sample_best (all_measurements : List (Metrics × Img)) : Option (Metrics × Img) :=
  pyMaxBy (fun item => item.1.area) all_measurements

/-- The `(height, count, area)` triple that `log_data_thread` extracts
from the best candidate and hands to `log_data`. -/
def logged_triple (states : List (AppState Img)) : Option (ℚ × ℕ × ℚ) :=
  (sample_best (collect_samples states)).map
    (fun best => (best.1.height, best.1.count, best.1.area))

/-! ### `PlantMonitorApp.scheduler_loop` -/

/-- `threading.Event.wait(timeout=T)` called at time `t` on an event that
gets set at time `tstop`, per the Python library semantics: the call
returns as soon as the event is set or the timeout expires, whichever is
earlier, and reports whether the event was set.  Result:
`(stopped, return_time)`. -/
def eventWait (tstop t T : ℚ) : Bool × ℚ :=
  if tstop ≤ t then (true, t)
  else if tstop ≤ t + T then (true, tstop)
  else (false, t + T)

/-- The `while not self.scheduler_stop_event.is_set()` loop of
`scheduler_loop` as a timed transition function: each iteration checks
the stop event at the loop head, triggers the log action (treated as
instantaneous here), then blocks in
`self.scheduler_stop_event.wait(timeout=interval_seconds)` and breaks if
that wait reports the event set.  `tstop` is the time at which
`toggle_scheduler` sets the stop event; `fuel` bounds the number of
iterations modelled; the result is the time at which the loop exits
(and the thread, hence the scheduler's active state, ends). -/
def scheduler_run (interval_seconds tstop : ℚ) : ℕ → ℚ → Option ℚ
  | 0, _ => none
  | fuel + 1, t =>
      if tstop ≤ t then some t
      else
        let w := eventWait tstop t interval_seconds
        if w.1 then some w.2
        else scheduler_run interval_seconds tstop fuel w.2

/-! ### `GoogleSheetsLogger.log_data` (`log_data_method`): the appended row -/

/-- A spreadsheet cell of the appended row: a rounded number, an integer
count, or a string (the empty string stands for an absent value). -/
inductive Cell where
  | num : ℚ → Cell
  | int : ℤ → Cell
  | str : String → Cell
deriving DecidableEq, Repr

/-- Python's `round` to the nearest integer: ties go to the even
neighbour (banker's rounding). -/
def pyRoundInt (q : ℚ) : ℤ :=
  if q - ⌊q⌋ < 1 / 2 then ⌊q⌋
  else if q - ⌊q⌋ > 1 / 2 then ⌊q⌋ + 1
  else if Even ⌊q⌋ then ⌊q⌋ else ⌊q⌋ + 1

/-- `round(q, 2)` (idealised over exact rationals). -/
def pyRound2 (q : ℚ) : ℚ := (pyRoundInt (q * 100) : ℚ) / 100

/-- A millimetre column of `new_row`:
`round(v, 2) if v else ""`.  A Python argument is either a number or the
`None` default, modelled by `Option ℚ`; both `None` and `0` are falsy and
yield the empty string. -/
def mmCell : Option ℚ → Cell
  | none => Cell.str ""
  | some v => if v = 0 then Cell.str "" else Cell.num (pyRound2 v)

/-- The leaf-count column: `leaf_count if leaf_count else ""`. -/
def countCell : Option ℤ → Cell
  | none => Cell.str ""
  | some n => if n = 0 then Cell.str "" else Cell.int n

/-- `new_row` as built by `log_data_method` (script lines 174-185).  The
timestamp strings, the `extract_total_area(notes)` result and the
basename of the image filename do not depend on the numeric arguments and
enter as given cells. -/
def log_new_row (timestamp_iso date_str time_str : String)
    (stem_mm leaf_mm largest_leaf_mm : Option ℚ) (leaf_count : Option ℤ)
    (area_cell file_cell : Cell) (notes : String) : List Cell :=
  [Cell.str timestamp_iso,
   Cell.str date_str,
   Cell.str time_str,
   mmCell stem_mm,
   mmCell leaf_mm,
   mmCell largest_leaf_mm,
   countCell leaf_count,
   area_cell,
   file_cell,
   Cell.str notes]

/-! ### Helper lemmas about `boundingRect` and `pushHistory` -/

theorem foldl_min_le_foldl_max (g : Pt → Int) :
    ∀ (l : List Pt) (a b : Int), a ≤ b →
      l.foldl (fun x q => min x (g q)) a ≤ l.foldl (fun x q => max x (g q)) b := by
  intro l
  induction l with
  | nil => intro a b h; exact h
  | cons q rest ih =>
      intro a b h
      simp only [List.foldl]
      refine ih (min a (g q)) (max b (g q)) ?_
      calc min a (g q) ≤ a := min_le_left _ _
        _ ≤ b := h
        _ ≤ max b (g q) := le_max_left _ _

/-- A nonempty point set has bounding-box width at least one pixel
(OpenCV's inclusive convention). -/
theorem boundingRect_w_pos (p : Pt) (rest : List Pt) :
    1 ≤ (boundingRect (p :: rest)).w := by
  have h : rest.foldl (fun a q => min a q.x) p.x ≤ rest.foldl (fun a q => max a q.x) p.x :=
    foldl_min_le_foldl_max (fun q => q.x) rest p.x p.x le_rfl
  simp only [boundingRect]
  omega

/-- A nonempty point set has bounding-box height at least one pixel. -/
theorem boundingRect_h_pos (p : Pt) (rest : List Pt) :
    1 ≤ (boundingRect (p :: rest)).h := by
  have h : rest.foldl (fun a q => min a q.y) p.y ≤ rest.foldl (fun a q => max a q.y) p.y :=
    foldl_min_le_foldl_max (fun q => q.y) rest p.y p.y le_rfl
  simp only [boundingRect]
  omega

theorem pushHistory_length_le (window : ℕ) (history : List Metrics) (m : Metrics)
    (h : history.length ≤ window) :
    (pushHistory window history m).length ≤ window := by
  simp only [pushHistory, List.length_append, List.length_singleton]
  split
  · simp only [List.length_tail, List.length_append, List.length_singleton]
    omega
  · simp only [List.length_append, List.length_singleton]
    omega

/-- Folding `pushHistory` keeps exactly the last `window` entries of the
stream: the history is the suffix of the pushed sequence past the
overflow. -/
theorem pushHistory_foldl (window : ℕ) :
    ∀ (ms : List Metrics) (history : List Metrics), history.length ≤ window →
      ms.foldl (pushHistory window) history
        = (history ++ ms).drop ((history ++ ms).length - window) := by
  intro ms
  induction ms with
  | nil =>
      intro history h
      simp only [List.foldl, List.append_nil]
      rw [Nat.sub_eq_zero_of_le h, List.drop_zero]
  | cons m ms ih =>
      intro history h
      simp only [List.foldl]
      rw [ih (pushHistory window history m) (pushHistory_length_le window history m h)]
      unfold pushHistory
      by_cases hc : (history ++ [m]).length > window
      · have hwin : history.length = window := by
          simp only [List.length_append, List.length_singleton] at hc
          omega
        simp only [if_pos hc]
        rw [show history ++ m :: ms = (history ++ [m]) ++ ms from by simp]
        have htail : (history ++ [m]).tail ++ ms = ((history ++ [m]) ++ ms).tail := by
          cases history <;> simp
        rw [htail, ← List.drop_one, List.drop_drop]
        congr 1
        simp only [List.length_drop, List.length_append, List.length_singleton]
        omega
      · simp only [if_neg hc]
        rw [show (history ++ [m]) ++ ms = history ++ m :: ms from by simp]


/-! ### Concrete instantiations used by witnesses and counterexamples -/

/-- A 20×20-pixel square contour: pixel area 400, bounding box 21×21. -/
def sq20 : Contour := [⟨0, 0⟩, ⟨20, 0⟩, ⟨20, 20⟩, ⟨0, 20⟩]

/-- A square contour of bounding-box height 100 (rows 0..99), area 9801. -/
def sq100 : Contour := [⟨0, 0⟩, ⟨99, 0⟩, ⟨99, 99⟩, ⟨0, 99⟩]

/-- A small 7×7 square contour: area 49, below `MIN_LEAF_AREA_PIXELS`. -/
def sq8 : Contour := [⟨0, 0⟩, ⟨7, 0⟩, ⟨7, 7⟩, ⟨0, 7⟩]

/-- A 10×40 rectangle: area 400 (tying `sq20`), bounding-box width 11. -/
def rect40 : Contour := [⟨0, 0⟩, ⟨10, 0⟩, ⟨10, 40⟩, ⟨0, 40⟩]

theorem contourArea_sq20 : contourArea sq20 = 400 := by
  have h : shoelace sq20 = 800 := by decide
  rw [contourArea, h]
  norm_num

theorem contourArea_sq100 : contourArea sq100 = 9801 := by
  have h : shoelace sq100 = 19602 := by decide
  rw [contourArea, h]
  norm_num

theorem contourArea_sq8 : contourArea sq8 = 49 := by
  have h : shoelace sq8 = 98 := by decide
  rw [contourArea, h]
  norm_num

theorem contourArea_rect40 : contourArea rect40 = 400 := by
  have h : shoelace rect40 = 800 := by decide
  rw [contourArea, h]
  norm_num

/-- A trivial OpenCV bundle whose contour extraction always finds exactly
the square `sq20`. -/
def cvOneSquare : CVPrims Unit Unit where
  cvtColorBGR2HSV := id
  inRange := fun _ _ _ => ()
  bitwise_or := fun _ _ => ()
  erode := fun m _ => m
  dilate := fun m _ => m
  findContours := fun _ => [sq20]

/-- A bundle whose contour extraction always finds exactly `sq100`. -/
def cvSquare100 : CVPrims Unit Unit where
  cvtColorBGR2HSV := id
  inRange := fun _ _ _ => ()
  bitwise_or := fun _ _ => ()
  erode := fun m _ => m
  dilate := fun m _ => m
  findContours := fun _ => [sq100]

/-- A bundle whose contour extraction always finds exactly the small
square `sq8` (area below the filter threshold). -/
def cvSmall : CVPrims Unit Unit where
  cvtColorBGR2HSV := id
  inRange := fun _ _ _ => ()
  bitwise_or := fun _ _ => ()
  erode := fun m _ => m
  dilate := fun m _ => m
  findContours := fun _ => [sq8]

/-- A bundle whose contour extraction finds `rect40` then `sq20`, two
contours of equal area, to exercise the tie-break. -/
def cvTie : CVPrims Unit Unit where
  cvtColorBGR2HSV := id
  inRange := fun _ _ _ => ()
  bitwise_or := fun _ _ => ()
  erode := fun m _ => m
  dilate := fun m _ => m
  findContours := fun _ => [rect40, sq20]

/-- A bundle with `Bool` masks in which a range's mask is hot exactly when
its upper bound is nonzero, so merging a second range visibly changes the
extracted contours. -/
def cvOrMatters : CVPrims Unit Bool where
  cvtColorBGR2HSV := id
  inRange := fun _ _ upper => decide (¬ allZero upper)
  bitwise_or := fun a b => a || b
  erode := fun m _ => m
  dilate := fun m _ => m
  findContours := fun m => if m then [sq20] else []

theorem find_plant_contours_cvOneSquare :
    find_plant_contours cvOneSquare () = [sq20] := by
  have hgt : decide (contourArea sq20 > MIN_LEAF_AREA_PIXELS) = true := by
    rw [contourArea_sq20]
    decide
  simp only [find_plant_contours, find_plant_contours_ranges, cvOneSquare]
  simp [List.filter, hgt]

theorem find_plant_contours_cvSquare100 :
    find_plant_contours cvSquare100 () = [sq100] := by
  have hgt : decide (contourArea sq100 > MIN_LEAF_AREA_PIXELS) = true := by
    rw [contourArea_sq100]
    decide
  simp only [find_plant_contours, find_plant_contours_ranges, cvSquare100]
  simp [List.filter, hgt]

/-! ### C1: total area formula and quadratic scaling -/

/-- C1: for every frame with at least one surviving plant contour and
every `pixels_per_mm > 0`, the measured `area_mm2` equals the sum of the
contours' pixel areas divided by `pixels_per_mm` squared, and doubling
`pixels_per_mm` on the same pixel input scales the reported area by
exactly 1/4. -/
theorem C1_area_formula_and_quadratic_scaling {Img Mask : Type}
    (cv : CVPrims Img Mask) (frame : Img) (pixels_per_mm : ℚ)
    (hppm : 0 < pixels_per_mm) (hne : find_plant_contours cv frame ≠ []) :
    (video_measure cv true pixels_per_mm frame).area
        = ((find_plant_contours cv frame).map contourArea).sum / pixels_per_mm ^ 2
      ∧ (video_measure cv true (2 * pixels_per_mm) frame).area
        = (video_measure cv true pixels_per_mm frame).area / 4 := by
  cases hpc : find_plant_contours cv frame with
  | nil => exact absurd hpc hne
  | cons c cs =>
      have harea : ∀ p : ℚ, 0 < p →
          (video_measure cv true p frame).area
            = ((c :: cs).map contourArea).sum / p ^ 2 := by
        intro p hp
        simp only [video_measure, hpc]
        rw [if_pos ⟨trivial, hp⟩]
      have h2 : (0 : ℚ) < 2 * pixels_per_mm := by linarith
      have hp0 : pixels_per_mm ≠ 0 := ne_of_gt hppm
      constructor
      · rw [harea _ hppm]
      · rw [harea _ hppm, harea _ h2, div_div]
        congr 1
        ring

/-- Witness for C1: a single 400-px² contour at 2 px/mm yields
100 mm², and 4 px/mm yields a quarter of it. -/
theorem C1_witness :
    (0 : ℚ) < 2 ∧ find_plant_contours cvOneSquare () ≠ [] ∧
    ((video_measure cvOneSquare true 2 ()).area
        = ((find_plant_contours cvOneSquare ()).map contourArea).sum / 2 ^ 2
      ∧ (video_measure cvOneSquare true (2 * 2) ()).area
        = (video_measure cvOneSquare true 2 ()).area / 4) ∧
    (video_measure cvOneSquare true 2 ()).area = 100 := by
  have hne : find_plant_contours cvOneSquare () ≠ [] := by
    rw [find_plant_contours_cvOneSquare]
    simp
  refine ⟨by norm_num, hne,
    C1_area_formula_and_quadratic_scaling cvOneSquare () 2 (by norm_num) hne, ?_⟩
  rw [(C1_area_formula_and_quadratic_scaling cvOneSquare () 2 (by norm_num) hne).1,
    find_plant_contours_cvOneSquare]
  rw [List.map_cons, List.map_nil, List.sum_cons, List.sum_nil, contourArea_sq20]
  norm_num

/-! ### C2: height formula -/

/-- The height formula as C2 words it: `(max_y + box_height_of_union)` in
pixels, divided by `pixels_per_mm` (spec-side definition, for comparison
with the code's `h_all / pixels_per_mm`). -/
def claim_height_mm (cv : CVPrims Img Mask) (frame : Img) (pixels_per_mm : ℚ) : ℚ :=
  ((maxY (find_plant_contours cv frame).flatten
      + (boundingRect (find_plant_contours cv frame).flatten).h : ℤ) : ℚ) / pixels_per_mm

/-- C2 counterexample: a frame whose single plant contour spans rows
0..99, at 2 px/mm: the code reports `h_all / ppm = 100 / 2 = 50` mm,
while the claim's `(max_y + box_height)` formula gives
`(99 + 100) / 2 = 99.5` mm, so the claimed height formula is not the
code's. -/
theorem C2_counterexample :
    (video_measure cvSquare100 true 2 ()).height = 50 ∧
    claim_height_mm cvSquare100 () 2 = 199 / 2 ∧
    (video_measure cvSquare100 true 2 ()).height ≠ claim_height_mm cvSquare100 () 2 := by
  have hflat : ([sq100] : List Contour).flatten = sq100 := by simp
  have hbr : boundingRect sq100 = ⟨0, 0, 100, 100⟩ := by decide
  have hmy : maxY sq100 = 99 := by decide
  have h1 : (video_measure cvSquare100 true 2 ()).height = 50 := by
    simp only [video_measure, find_plant_contours_cvSquare100]
    rw [if_pos ⟨trivial, by norm_num⟩]
    show ((boundingRect ([sq100] : List Contour).flatten).h : ℚ) / 2 = 50
    rw [hflat, hbr]
    norm_num
  have h2 : claim_height_mm cvSquare100 () 2 = 199 / 2 := by
    rw [claim_height_mm, find_plant_contours_cvSquare100, hflat, hbr, hmy]
    norm_num
  exact ⟨h1, h2, by rw [h1, h2]; norm_num⟩

/-- C2 (amended): the reported height is the bounding-box height of the
union (concatenation) of all contour point sets, in pixels, divided by
`pixels_per_mm` — without the claim's `max_y` summand — and for fixed
pixel input it scales linearly: doubling `pixels_per_mm` halves it. -/
theorem C2_height_formula_and_linear_scaling {Img Mask : Type}
    (cv : CVPrims Img Mask) (frame : Img) (pixels_per_mm : ℚ)
    (hppm : 0 < pixels_per_mm) (hne : find_plant_contours cv frame ≠ []) :
    (video_measure cv true pixels_per_mm frame).height
        = ((boundingRect (find_plant_contours cv frame).flatten).h : ℚ) / pixels_per_mm
      ∧ (video_measure cv true (2 * pixels_per_mm) frame).height
        = (video_measure cv true pixels_per_mm frame).height / 2 := by
  cases hpc : find_plant_contours cv frame with
  | nil => exact absurd hpc hne
  | cons c cs =>
      have hheight : ∀ p : ℚ, 0 < p →
          (video_measure cv true p frame).height
            = ((boundingRect ((c :: cs) : List Contour).flatten).h : ℚ) / p := by
        intro p hp
        simp only [video_measure, hpc]
        rw [if_pos ⟨trivial, hp⟩]
      have h2 : (0 : ℚ) < 2 * pixels_per_mm := by linarith
      have hp0 : pixels_per_mm ≠ 0 := ne_of_gt hppm
      constructor
      · rw [hheight _ hppm]
      · rw [hheight _ hppm, hheight _ h2, div_div]
        congr 1
        ring

/-- Witness for C2 (amended): a 100-pixel bounding height at 2 px/mm
gives 50 mm, and at 4 = 2·2 px/mm gives 25 mm. -/
theorem C2_witness :
    (0 : ℚ) < 2 ∧ find_plant_contours cvSquare100 () ≠ [] ∧
    ((video_measure cvSquare100 true 2 ()).height
        = ((boundingRect (find_plant_contours cvSquare100 ()).flatten).h : ℚ) / 2
      ∧ (video_measure cvSquare100 true (2 * 2) ()).height
        = (video_measure cvSquare100 true 2 ()).height / 2) ∧
    (video_measure cvSquare100 true 2 ()).height = 50 ∧
    (video_measure cvSquare100 true (2 * 2) ()).height = 25 := by
  have hne : find_plant_contours cvSquare100 () ≠ [] := by
    rw [find_plant_contours_cvSquare100]
    simp
  have happ := C2_height_formula_and_linear_scaling cvSquare100 () 2 (by norm_num) hne
  have h50 : (video_measure cvSquare100 true 2 ()).height = 50 := by
    rw [happ.1, find_plant_contours_cvSquare100]
    rw [show ([sq100] : List Contour).flatten = sq100 by simp,
      show boundingRect sq100 = ⟨0, 0, 100, 100⟩ by decide]
    norm_num
  refine ⟨by norm_num, hne, happ, h50, ?_⟩
  rw [happ.2, h50]
  norm_num

/-! ### C3: the colour-range skip condition -/

/-- C3 (amended): the second colour range is skipped exactly when its
lower bound OR its upper bound is the all-zero vector (the code requires
both bounds nonzero to use the range, not merely "not both zero"), and
skipping it yields exactly the pipeline with the range omitted entirely;
when neither bound is all-zero the pipeline is the two-range union the
claim describes. -/
theorem C3_skip_condition_and_omission_equiv {Img Mask : Type}
    (cv : CVPrims Img Mask) (lower1 upper1 lower2 upper2 : Vec3) (frame : Img) :
    find_plant_contours_ranges cv lower1 upper1 lower2 upper2 frame
      = if allZero lower2 ∨ allZero upper2 then
          segment_one_range cv lower1 upper1 frame
        else
          find_plant_contours_claim cv lower1 upper1 lower2 upper2 frame := by
  by_cases h : allZero lower2 ∨ allZero upper2
  · rw [if_pos h]
    simp only [find_plant_contours_ranges, segment_one_range]
    rw [if_neg (by tauto)]
  · rw [if_neg h]
    push_neg at h
    simp only [find_plant_contours_ranges, find_plant_contours_claim]
    rw [if_pos h, if_pos (fun hand => h.1 hand.1)]

/-- C3 counterexample: the range with lower bound `(0,0,0)` and nonzero
upper bound `(0,0,255)` is not "both bounds all-zero", yet the code skips
it: at a bundle where merging the second mask changes the extraction, the
code's pipeline returns the omission result `[]` while the claimed
"active" pipeline returns `[sq20]`. -/
theorem C3_counterexample :
    ¬ (allZero ((0, 0, 0) : Vec3) ∧ allZero ((0, 0, 255) : Vec3)) ∧
    find_plant_contours_ranges cvOrMatters (0, 0, 0) (0, 0, 0) (0, 0, 0) (0, 0, 255) ()
      = segment_one_range cvOrMatters (0, 0, 0) (0, 0, 0) () ∧
    find_plant_contours_ranges cvOrMatters (0, 0, 0) (0, 0, 0) (0, 0, 0) (0, 0, 255) () = [] ∧
    find_plant_contours_claim cvOrMatters (0, 0, 0) (0, 0, 0) (0, 0, 0) (0, 0, 255) () = [sq20] ∧
    find_plant_contours_ranges cvOrMatters (0, 0, 0) (0, 0, 0) (0, 0, 0) (0, 0, 255) ()
      ≠ find_plant_contours_claim cvOrMatters (0, 0, 0) (0, 0, 0) (0, 0, 0) (0, 0, 255) () := by
  have hgt : decide (contourArea sq20 > MIN_LEAF_AREA_PIXELS) = true := by
    rw [contourArea_sq20]
    decide
  have h1 : find_plant_contours_ranges cvOrMatters (0, 0, 0) (0, 0, 0) (0, 0, 0) (0, 0, 255) ()
      = [] := by
    simp only [find_plant_contours_ranges, cvOrMatters]
    simp [allZero]
  have h2 : find_plant_contours_claim cvOrMatters (0, 0, 0) (0, 0, 0) (0, 0, 0) (0, 0, 255) ()
      = [sq20] := by
    simp only [find_plant_contours_claim, cvOrMatters]
    simp [allZero, List.filter, hgt]
  have h0 : segment_one_range cvOrMatters (0, 0, 0) (0, 0, 0) () = [] := by
    simp only [segment_one_range, cvOrMatters]
    simp [allZero]
  refine ⟨by decide, ?_, h1, h2, ?_⟩
  · rw [h1, h0]
  · rw [h1, h2]
    simp

/-! ### C5: the Calibrator does not run the Segmenter pipeline -/

/-- C5 counterexample: a bundle whose reference mask yields only the
49-px² contour `sq8`: the Calibrator's extraction keeps it, while the
Segmenter pipeline run on the reference range filters it out, so the
Calibrator's extraction is not the Segmenter's. -/
theorem C5_counterexample :
    calib_contours cvSmall () = [sq8] ∧
    segment_one_range cvSmall REFERENCE_LOWER REFERENCE_UPPER () = [] ∧
    calib_contours cvSmall ()
      ≠ segment_one_range cvSmall REFERENCE_LOWER REFERENCE_UPPER () := by
  have hlt : decide (contourArea sq8 > MIN_LEAF_AREA_PIXELS) = false := by
    rw [contourArea_sq8]
    decide
  have h1 : calib_contours cvSmall () = [sq8] := rfl
  have h2 : segment_one_range cvSmall REFERENCE_LOWER REFERENCE_UPPER () = [] := by
    simp only [segment_one_range, cvSmall]
    simp [List.filter, hlt]
  refine ⟨h1, h2, ?_⟩
  rw [h1, h2]
  simp

/-- C5 (amended): the Calibrator's contour extraction is
`findContours ∘ inRange` on the reference range, with no
erosion/dilation pass and no minimum-area filter; it coincides with the
Segmenter pipeline run on the reference range only when the morphology
leaves the reference mask unchanged and every extracted contour's area
already exceeds `MIN_LEAF_AREA_PIXELS`. -/
theorem C5_calibrator_extraction_vs_segmenter {Img Mask : Type}
    (cv : CVPrims Img Mask) (frame : Img)
    (herode : cv.erode (cv.inRange (cv.cvtColorBGR2HSV frame) REFERENCE_LOWER REFERENCE_UPPER) 3
        = cv.inRange (cv.cvtColorBGR2HSV frame) REFERENCE_LOWER REFERENCE_UPPER)
    (hdilate : cv.dilate (cv.inRange (cv.cvtColorBGR2HSV frame) REFERENCE_LOWER REFERENCE_UPPER) 3
        = cv.inRange (cv.cvtColorBGR2HSV frame) REFERENCE_LOWER REFERENCE_UPPER)
    (hbig : ∀ c ∈ calib_contours cv frame, contourArea c > MIN_LEAF_AREA_PIXELS) :
    calib_contours cv frame = segment_one_range cv REFERENCE_LOWER REFERENCE_UPPER frame := by
  simp only [segment_one_range, herode, hdilate]
  symm
  refine List.filter_eq_self.2 ?_
  intro c hc
  exact decide_eq_true (hbig c hc)

/-- Witness for C5 (amended): at `cvOneSquare` the reference mask is
untouched by the (identity) morphology and the single extracted contour
has area 400 > 100, so the two extractions agree there. -/
theorem C5_witness :
    calib_contours cvOneSquare ()
      = segment_one_range cvOneSquare REFERENCE_LOWER REFERENCE_UPPER () := by
  refine C5_calibrator_extraction_vs_segmenter cvOneSquare () rfl rfl ?_
  intro c hc
  have h : calib_contours cvOneSquare () = [sq20] := rfl
  rw [h] at hc
  simp only [List.mem_singleton] at hc
  rw [hc, contourArea_sq20]
  norm_num [MIN_LEAF_AREA_PIXELS]

/-! ### C4: `find_pixels_per_mm` -/

/-- C4: the Calibrator returns `pixels_per_mm = 0` exactly on the no-contour
path, and otherwise (given that extraction yields genuine nonempty
contours) returns the bounding-box width of the maximum-area contour
divided by `REFERENCE_WIDTH_MM`, where the selected contour is the first
one in extraction order attaining the maximal area. -/
theorem C4_find_pixels_per_mm_spec {Img Mask : Type}
    (cv : CVPrims Img Mask) (frame : Img)
    (hnonempty : ∀ c ∈ calib_contours cv frame, c ≠ []) :
    (calib_contours cv frame = [] → find_pixels_per_mm cv frame = 0) ∧
    ∀ a as, calib_contours cv frame = a :: as →
      ∃ r l t, pyMaxBy contourArea (calib_contours cv frame) = some r ∧
        find_pixels_per_mm cv frame = ((boundingRect r).w : ℚ) / REFERENCE_WIDTH_MM ∧
        (∀ c ∈ calib_contours cv frame, contourArea c ≤ contourArea r) ∧
        calib_contours cv frame = l ++ r :: t ∧
        ∀ c ∈ l, contourArea c < contourArea r := by
  constructor
  · intro h
    simp [find_pixels_per_mm, h, pyMaxBy]
  · intro a as hcs
    obtain ⟨l, t, hsplit, hlt⟩ := pyMaxBy_first contourArea a as
    have hmem : as.foldl (pyMaxStep contourArea) a ∈ a :: as :=
      pyMaxBy_mem contourArea a as
    have hrne : as.foldl (pyMaxStep contourArea) a ≠ [] := by
      refine hnonempty _ ?_
      rw [hcs]
      exact hmem
    obtain ⟨p, ps, hps⟩ := List.exists_cons_of_ne_nil hrne
    refine ⟨as.foldl (pyMaxStep contourArea) a, l, t, ?_, ?_, ?_, ?_, hlt⟩
    · rw [hcs]
      rfl
    · have hw := boundingRect_w_pos p ps
      simp only [find_pixels_per_mm, hcs, pyMaxBy]
      rw [hps]
      rw [if_neg (by omega)]
    · intro c hc
      rw [hcs] at hc
      exact pyMaxBy_le contourArea a as c hc
    · rw [hcs]
      exact hsplit

/-- Witness for C4: two contours of equal area 400, `rect40` (box width
11) first and `sq20` (box width 21) second: the ratio is computed from
the first of the tie, `11 / 10`. -/
theorem C4_witness :
    calib_contours cvTie () = [rect40, sq20] ∧
    contourArea rect40 = contourArea sq20 ∧
    find_pixels_per_mm cvTie () = 11 / 10 ∧
    (∃ r l t, pyMaxBy contourArea (calib_contours cvTie ()) = some r ∧
      find_pixels_per_mm cvTie () = ((boundingRect r).w : ℚ) / REFERENCE_WIDTH_MM ∧
      (∀ c ∈ calib_contours cvTie (), contourArea c ≤ contourArea r) ∧
      calib_contours cvTie () = l ++ r :: t ∧
      ∀ c ∈ l, contourArea c < contourArea r) := by
  have hcs : calib_contours cvTie () = [rect40, sq20] := rfl
  have heq : contourArea rect40 = contourArea sq20 := by
    rw [contourArea_rect40, contourArea_sq20]
  have hsel : pyMaxBy contourArea (calib_contours cvTie ()) = some rect40 := by
    rw [hcs]
    simp only [pyMaxBy, List.foldl]
    rw [pyMaxStep_le contourArea rect40 sq20 (by rw [heq]; exact lt_irrefl _)]
  have hval : find_pixels_per_mm cvTie () = 11 / 10 := by
    have hsel2 : pyMaxBy contourArea [rect40, sq20] = some rect40 := by
      rw [← hcs]
      exact hsel
    simp only [find_pixels_per_mm, hcs, hsel2]
    rw [show boundingRect rect40 = ⟨0, 0, 11, 41⟩ from by decide]
    rw [if_neg (by decide)]
    norm_num [REFERENCE_WIDTH_MM]
  exact ⟨hcs, heq, hval,
    (C4_find_pixels_per_mm_spec cvTie () (by decide)).2 rect40 [sq20] hcs⟩

/-! ### C6: best-of-window sample selection -/

/-- C6: over a nonempty candidate window, `sample_best` returns a
candidate whose `area_mm2` is maximal, and the window splits as
`l ++ best :: t` with every earlier candidate's area strictly smaller:
ties are broken in favour of the earliest-collected candidate. -/
theorem C6_sample_best_max_earliest {Img : Type}
    (samples : List (Metrics × Img)) (a : Metrics × Img)
    (as : List (Metrics × Img)) (hs : samples = a :: as) :
    ∃ r l t, sample_best samples = some r ∧
      (∀ s ∈ samples, s.1.area ≤ r.1.area) ∧
      samples = l ++ r :: t ∧
      ∀ s ∈ l, s.1.area < r.1.area := by
  subst hs
  obtain ⟨l, t, hsplit, hlt⟩ := pyMaxBy_first (fun item => item.1.area) a as
  exact ⟨_, l, t, rfl, pyMaxBy_le (fun item => item.1.area) a as, hsplit, hlt⟩

/-- Witness for C6: the synthetic window with areas `[1, 5, 3]` selects
the area-5 candidate. -/
theorem C6_witness :
    sample_best ([(⟨0, 0, 1⟩, ()), (⟨0, 0, 5⟩, ()), (⟨0, 0, 3⟩, ())] :
        List (Metrics × Unit))
      = some (⟨0, 0, 5⟩, ()) ∧
    (∃ r l t,
      sample_best ([(⟨0, 0, 1⟩, ()), (⟨0, 0, 5⟩, ()), (⟨0, 0, 3⟩, ())] :
          List (Metrics × Unit)) = some r ∧
      (∀ s ∈ ([(⟨0, 0, 1⟩, ()), (⟨0, 0, 5⟩, ()), (⟨0, 0, 3⟩, ())] :
          List (Metrics × Unit)), s.1.area ≤ r.1.area) ∧
      ([(⟨0, 0, 1⟩, ()), (⟨0, 0, 5⟩, ()), (⟨0, 0, 3⟩, ())] :
          List (Metrics × Unit)) = l ++ r :: t ∧
      ∀ s ∈ l, s.1.area < r.1.area) := by
  constructor
  · have hinner : pyMaxStep (fun item : Metrics × Unit => item.1.area)
        (⟨0, 0, 1⟩, ()) (⟨0, 0, 5⟩, ()) = (⟨0, 0, 5⟩, ()) :=
      pyMaxStep_gt _ _ _ (by norm_num)
    simp only [sample_best, pyMaxBy, List.foldl, hinner]
    rw [pyMaxStep_le _ _ _ (by norm_num)]
  · exact C6_sample_best_max_earliest _ (⟨0, 0, 1⟩, ())
      [(⟨0, 0, 5⟩, ()), (⟨0, 0, 3⟩, ())] rfl

/-! ### C7: the logged values never come from the smoother -/

/-- C7: the committed log triple is a function of the raw per-frame
snapshots (`current_metrics`, `current_frame_raw`) alone: two state
sequences that agree on those snapshots produce the same logged
`(height, leaf_count, area)` triple whatever their smoother histories
contain — smoothing never alters what is logged. -/
theorem C7_logged_triple_ignores_history {Img : Type}
    (s1 s2 : List (AppState Img))
    (h : s1.map (fun st => (st.current_metrics, st.current_frame_raw))
       = s2.map (fun st => (st.current_metrics, st.current_frame_raw))) :
    logged_triple s1 = logged_triple s2 := by
  have key : ∀ s : List (AppState Img),
      collect_samples s
        = (s.map (fun st => (st.current_metrics, st.current_frame_raw))).filterMap
            (fun p => p.2.map (fun fr => (p.1, fr))) := by
    intro s
    rw [List.filterMap_map]
    rfl
  unfold logged_triple
  rw [key s1, key s2, h]

/-- Witness for C7: two single-state runs with the same raw snapshot but
empty versus two-entry smoother histories log the same triple. -/
theorem C7_witness :
    ([⟨⟨1, 2, 3⟩, [], some ()⟩] : List (AppState Unit)).map
        (fun st => (st.current_metrics, st.current_frame_raw))
      = ([⟨⟨1, 2, 3⟩, [⟨9, 9, 9⟩, ⟨7, 7, 7⟩], some ()⟩] : List (AppState Unit)).map
          (fun st => (st.current_metrics, st.current_frame_raw)) ∧
    ([] : List Metrics) ≠ [⟨9, 9, 9⟩, ⟨7, 7, 7⟩] ∧
    logged_triple ([⟨⟨1, 2, 3⟩, [], some ()⟩] : List (AppState Unit))
      = logged_triple
          ([⟨⟨1, 2, 3⟩, [⟨9, 9, 9⟩, ⟨7, 7, 7⟩], some ()⟩] : List (AppState Unit)) :=
  ⟨rfl, by simp, C7_logged_triple_ignores_history _ _ rfl⟩

/-! ### C8: the smoother's history is bounded with FIFO eviction -/

/-- C8: under any push sequence starting from the empty history the
measurement history never exceeds the 30-entry smoothing window, and
eviction is FIFO: after `smoothing_window + 1` pushes the history is
exactly the pushed stream minus its first element, so the first-pushed
entry (when not re-pushed later) is absent and the most recently pushed
entry is present. -/
theorem C8_history_bound_and_fifo (m0 : Metrics) (rest : List Metrics)
    (hlen : (m0 :: rest).length = smoothing_window + 1) (hm0 : m0 ∉ rest) :
    (∀ ms : List Metrics,
      (ms.foldl (pushHistory smoothing_window) []).length ≤ smoothing_window) ∧
    (m0 :: rest).foldl (pushHistory smoothing_window) [] = rest ∧
    m0 ∉ (m0 :: rest).foldl (pushHistory smoothing_window) [] ∧
    ∀ mN, rest.getLast? = some mN →
      mN ∈ (m0 :: rest).foldl (pushHistory smoothing_window) [] := by
  have hfold : ∀ ms : List Metrics,
      ms.foldl (pushHistory smoothing_window) []
        = ms.drop (ms.length - smoothing_window) := by
    intro ms
    have h := pushHistory_foldl smoothing_window ms [] (by simp)
    simpa using h
  have h2 : (m0 :: rest).foldl (pushHistory smoothing_window) [] = rest := by
    rw [hfold, hlen, Nat.add_sub_cancel_left smoothing_window 1]
    simp
  refine ⟨?_, h2, ?_, ?_⟩
  · intro ms
    rw [hfold]
    simp only [List.length_drop]
    omega
  · rw [h2]
    exact hm0
  · intro mN hmN
    rw [h2]
    obtain ⟨hne, hx⟩ := List.mem_getLast?_eq_getLast hmN
    exact hx ▸ List.getLast_mem hne

/-- The first pushed metric of the FIFO witness stream. -/
def fifoFirst : Metrics := ⟨0, 0, 0⟩

/-- Thirty further distinct metrics (leaf counts 1..30). -/
def fifoRest : List Metrics := (List.range 30).map (fun i => ⟨0, i + 1, 0⟩)

/-- Witness for C8: pushing 31 distinct metrics leaves the last 30: the
first is gone, the 31st (leaf count 30) is present, and the length bound
holds. -/
theorem C8_witness :
    (fifoFirst :: fifoRest).length = smoothing_window + 1 ∧
    fifoFirst ∉ fifoRest ∧
    ((fifoFirst :: fifoRest).foldl (pushHistory smoothing_window) []).length
        ≤ smoothing_window ∧
    (fifoFirst :: fifoRest).foldl (pushHistory smoothing_window) [] = fifoRest ∧
    fifoFirst ∉ (fifoFirst :: fifoRest).foldl (pushHistory smoothing_window) [] ∧
    (⟨0, 30, 0⟩ : Metrics)
        ∈ (fifoFirst :: fifoRest).foldl (pushHistory smoothing_window) [] := by
  have hlen : (fifoFirst :: fifoRest).length = smoothing_window + 1 := by decide
  have hm0 : fifoFirst ∉ fifoRest := by decide
  have h := C8_history_bound_and_fifo fifoFirst fifoRest hlen hm0
  exact ⟨hlen, hm0, h.1 (fifoFirst :: fifoRest), h.2.1, h.2.2.1,
    h.2.2.2 ⟨0, 30, 0⟩ (by decide)⟩

/-! ### C9: the scheduler's wait is interruptible -/

/-- C9: when the stop event is set strictly inside a wait window — after
an iteration starts at time `t` but before the full `interval_seconds`
timeout would elapse — the scheduler loop exits at the stop time itself,
strictly before the interval boundary: the wait is interruptible, not an
uninterruptible sleep. -/
theorem C9_scheduler_stop_interrupts_wait
    (interval_seconds t tstop : ℚ) (fuel : ℕ) (h1 : t < tstop)
    (h2 : tstop < t + interval_seconds) :
    scheduler_run interval_seconds tstop (fuel + 1) t = some tstop ∧
    tstop < t + interval_seconds := by
  refine ⟨?_, h2⟩
  simp only [scheduler_run, eventWait]
  rw [if_neg (not_le.2 h1), if_neg (not_le.2 h1), if_pos (le_of_lt h2)]
  simp

/-- Witness for C9: with a one-second interval and the stop request
arriving half a second into the wait, the loop exits at time 1/2, not at
the one-second boundary. -/
theorem C9_witness :
    scheduler_run 1 (1 / 2) 1 0 = some (1 / 2) ∧ (1 / 2 : ℚ) < 0 + 1 :=
  C9_scheduler_stop_interrupts_wait 1 0 (1 / 2) 0 (by norm_num) (by norm_num)

/-! ### C10: zero measurements are logged as the empty string -/

/-- C10: in the sheet row built by `log_data`, a millimetre argument that
is `0` (or absent) produces the empty-string cell — presence is tested by
Python truthiness — a zero leaf count likewise, nonzero millimetre values
are rounded to two decimals, and a zero value is indistinguishable in the
row from an absent (`None`) value. -/
theorem C10_zero_logged_as_blank (timestamp_iso date_str time_str : String)
    (stem_mm leaf_mm largest_leaf_mm : Option ℚ) (leaf_count : Option ℤ)
    (area_cell file_cell : Cell) (notes : String) (q : ℚ) (n : ℤ)
    (hq : q ≠ 0) (hn : n ≠ 0) :
    ((log_new_row timestamp_iso date_str time_str stem_mm leaf_mm largest_leaf_mm
          leaf_count area_cell file_cell notes).get? 3 = some (mmCell stem_mm) ∧
      (log_new_row timestamp_iso date_str time_str stem_mm leaf_mm largest_leaf_mm
          leaf_count area_cell file_cell notes).get? 4 = some (mmCell leaf_mm) ∧
      (log_new_row timestamp_iso date_str time_str stem_mm leaf_mm largest_leaf_mm
          leaf_count area_cell file_cell notes).get? 5 = some (mmCell largest_leaf_mm) ∧
      (log_new_row timestamp_iso date_str time_str stem_mm leaf_mm largest_leaf_mm
          leaf_count area_cell file_cell notes).get? 6 = some (countCell leaf_count)) ∧
    mmCell (some 0) = Cell.str "" ∧
    countCell (some 0) = Cell.str "" ∧
    mmCell (some 0) = mmCell none ∧
    countCell (some 0) = countCell none ∧
    mmCell (some q) = Cell.num (pyRound2 q) ∧
    countCell (some n) = Cell.int n := by
  refine ⟨⟨rfl, rfl, rfl, rfl⟩, rfl, rfl, rfl, rfl, ?_, ?_⟩
  · simp [mmCell, hq]
  · simp [countCell, hn]

/-- Witness for C10: the stem value 45.5 is nonzero and logged rounded,
while a zero largest-leaf value is logged as the blank cell, identical to
the absent case. -/
theorem C10_witness :
    (91 / 2 : ℚ) ≠ 0 ∧ (6 : ℤ) ≠ 0 ∧
    mmCell (some (91 / 2)) = Cell.num (pyRound2 (91 / 2)) ∧
    countCell (some 6) = Cell.int 6 ∧
    mmCell (some 0) = mmCell none := by
  have h := C10_zero_logged_as_blank "" "" "" none none none none
    (Cell.str "") (Cell.str "") "" (91 / 2) 6 (by norm_num) (by norm_num)
  exact ⟨by norm_num, by norm_num, h.2.2.2.2.2.1, h.2.2.2.2.2.2, h.2.2.2.1⟩

end SpinachMonitor
